import Mathlib

/-!
Verification of the clang-format helper script (`clang-format.py`).

The script resolves, for a given C++ file, its "main" counterpart file
(test → implementation, mock → interface, …) using directory-layout and
filename-suffix conventions (`find_main_file`), and then produces a derived
`.clang-format` document in which the placeholder token `MAIN_INCLUDE_FILE`
is substituted by the resolved file's path expressed relative to the
appropriate root (`modify_clang_format`).

The embedding below models Python's path/string primitives
(`os.path.basename`, `os.path.dirname`, `os.path.splitext`, `os.path.join`,
`os.path.relpath`, `str.replace`, `in`, `endswith`) over `List Char`, with
`String` wrappers, and the two core functions of the script as pure
functions of the project root, a filesystem existence oracle
(`fs : String → Bool`, modelling `os.path.isfile`), and the input path.
-/

/-- `containsSub hay needle = true` iff `needle` occurs as a contiguous
substring of `hay`; models Python's `needle in hay`. -/
def containsSub (hay needle : List Char) : Bool :=
  if needle.isPrefixOf hay then true
  else
    match hay with
    | [] => false
    | _ :: t => containsSub t needle

/-- Fuel-driven worker for `str.replace(old, new)` (replace all
non-overlapping occurrences, scanning left to right).  The fuel is
decremented once per step; `fuel = s.length` is always enough since every
step consumes at least one character of `s`. -/
def replaceAllAux (old new : List Char) : Nat → List Char → List Char
  | _, [] => []
  | 0, s => s
  | fuel + 1, c :: cs =>
    if old ≠ [] ∧ old.isPrefixOf (c :: cs) then
      new ++ replaceAllAux old new fuel ((c :: cs).drop old.length)
    else
      c :: replaceAllAux old new fuel cs

/-- Python `s.replace(old, new)` for a non-empty `old` (every use in the
script has `old` containing a slash, hence non-empty). -/
def replaceAllCh (s old new : List Char) : List Char :=
  replaceAllAux old new s.length s

/-- Python `s.replace(old, new, 1)`: replace only the leftmost occurrence
of `old`, if any. -/
def replaceOnceCh (old new : List Char) : List Char → List Char
  | [] => if old.isPrefixOf [] then new else []
  | c :: cs =>
    if old.isPrefixOf (c :: cs) then new ++ (c :: cs).drop old.length
    else c :: replaceOnceCh old new cs

/-- `os.path.basename` (POSIX): everything after the last `'/'`. -/
def basenameCh (p : List Char) : List Char :=
  (p.reverse.takeWhile (fun c => c ≠ '/')).reverse

/-- `os.path.dirname` (POSIX): everything up to the last `'/'`, with
trailing slashes stripped unless the result consists only of slashes. -/
def dirnameCh (p : List Char) : List Char :=
  let tail := p.reverse.takeWhile (fun c => c ≠ '/')
  let head := p.take (p.length - tail.length)
  if head.any (fun c => c ≠ '/') then (head.reverse.dropWhile (fun c => c = '/')).reverse
  else head

/-- `os.path.splitext` restricted to slash-free inputs (the script only
applies it to `os.path.basename` output): split at the last dot, except
that a dot preceded only by dots does not start an extension. -/
def splitextCh (s : List Char) : List Char × List Char :=
  let tail := s.reverse.takeWhile (fun c => c ≠ '.')
  if tail.length = s.length then (s, [])
  else
    let n := s.length - tail.length - 1
    if (s.take n).any (fun c => c ≠ '.') then (s.take n, s.drop n) else (s, [])

/-- `os.path.join(a, b)` (POSIX, two arguments). -/
def joinCh (a b : List Char) : List Char :=
  if b.head? = some '/' then b
  else if a = [] ∨ a.getLast? = some '/' then a ++ b
  else a ++ '/' :: b

/-- Split a path on `'/'` keeping the pieces between separators. -/
def splitAcc (cur : List Char) : List Char → List (List Char)
  | [] => [cur.reverse]
  | c :: cs => if c = '/' then cur.reverse :: splitAcc [] cs else splitAcc (c :: cur) cs

/-- Non-empty `'/'`-separated components of a path, as in
`[x for x in p.split(sep) if x]` inside `os.path.relpath`. -/
def splitSlash (p : List Char) : List (List Char) :=
  (splitAcc [] p).filter (fun l => l ≠ [])

/-- Length of the longest common prefix of two component lists, as in
`os.path.commonprefix` applied inside `os.path.relpath`. -/
def sharedLen : List (List Char) → List (List Char) → Nat
  | a :: as, b :: bs => if a = b then sharedLen as bs + 1 else 0
  | _, _ => 0

/- String wrappers. -/

def basenameS (p : String) : String := ⟨basenameCh p.data⟩

def dirnameS (p : String) : String := ⟨dirnameCh p.data⟩

def splitextS (p : String) : String × String :=
  (⟨(splitextCh p.data).1⟩, ⟨(splitextCh p.data).2⟩)

def pyJoin (a b : String) : String := ⟨joinCh a.data b.data⟩

def pyReplace (s old new : String) : String := ⟨replaceAllCh s.data old.data new.data⟩

def pyReplaceOnce (s old new : String) : String := ⟨replaceOnceCh old.data new.data s.data⟩

/-- Python `s.endswith(t)`. -/
def endsWithS (s t : String) : Bool := t.data.isSuffixOf s.data

/-- Python `needle in hay` on strings. -/
def hasSubS (hay needle : String) : Bool := containsSub hay.data needle.data

/-- Python `s[:-n]` for `n ≤ len(s)` (the script only uses `name[:-5]`
after checking a length-5 suffix). -/
def strDropRight (s : String) (n : Nat) : String := ⟨s.data.take (s.data.length - n)⟩

/-- `os.path.relpath(target, base)` (POSIX) for absolute, normalised
inputs; the script always passes such paths (`main()` applies
`os.path.abspath` to its arguments and all roots are built from an
absolute `PROJECT_DIR`). -/
def make_relative_to_base (base target : String) : String :=
  let s := splitSlash base.data
  let t := splitSlash target.data
  let i := sharedLen s t
  let rel := List.replicate (s.length - i) ".." ++ (t.drop i).map (fun l => String.mk l)
  if rel = [] then "." else String.intercalate "/" rel

/- The script's root layout, built from `PROJECT_DIR` exactly as in
lines 7–11 of the source. -/

def SRC_DIR (project : String) : String := pyJoin project "core"

def TEST_DIR (project : String) : String := pyJoin project "test"

def MOCK_DIR (project : String) : String := pyJoin (TEST_DIR project) "mock"

def SRC_REFLECTION : String := "core"

/-- The inner helper `search_candidates(file_dir, base_name, suffix)` of
`find_main_file`: the suffixed sibling, the plain sibling, and — when the
directory itself is named `impl` — the plain sibling one level up. -/
def search_candidates (file_dir base_name suffix : String) : List String :=
  [pyJoin file_dir (base_name ++ suffix ++ ".hpp"),
   pyJoin file_dir (base_name ++ ".hpp")] ++
  (if basenameS file_dir = "impl" then [pyJoin (dirnameS file_dir) (base_name ++ ".hpp")] else [])

/-- The inner helper `find_first_existing(candidates)`: first candidate
that is non-empty and exists (`if candidate and os.path.isfile(candidate)`). -/
def find_first_existing (fs : String → Bool) : List String → Option String
  | [] => none
  | c :: cs => if c ≠ "" ∧ fs c = true then some c else find_first_existing fs cs

/-- The dedup-with-self-exclusion comprehension
`[x for x in candidates if not (x in seen or seen.add(x)) and x != file_path]`
(with `seen` initially empty): keep the first occurrence of every path,
except the input path itself, which is dropped entirely.  The `_impl`
branch keys `seen` by `tuple(x)` instead of `x`; tupling a string is
injective, so the semantics coincide. -/
def seenFilter (file_path : String) (seen : List String) : List String → List String
  | [] => []
  | x :: xs =>
    if x ∈ seen then seenFilter file_path seen xs
    else if x = file_path then seenFilter file_path (x :: seen) xs
    else x :: seenFilter file_path (x :: seen) xs

/-- `find_main_file(file_path)`, parameterised by the project root and the
filesystem existence oracle `fs` (one call per `os.path.isfile`). -/
def find_main_file (project : String) (fs : String → Bool) (file_path : String) : Option String :=
  let file_name := basenameS file_path
  let file_dir := dirnameS file_path
  let name := (splitextS file_name).1
  let ext := (splitextS file_name).2
  if ext = ".cpp" ∨ ext = ".hpp" then
    if endsWithS name "_mock" && hasSubS file_dir (MOCK_DIR project) then
      let base_name := strDropRight name 5
      let src_dir := pyReplace file_dir (MOCK_DIR project ++ "/" ++ SRC_REFLECTION) (SRC_DIR project)
      let candidates := search_candidates file_dir base_name "_mock" ++
        search_candidates src_dir base_name ""
      find_first_existing fs (seenFilter file_path [] candidates)
    else if endsWithS name "_test" && hasSubS file_dir (TEST_DIR project) then
      let base_name := strDropRight name 5
      let src_dir := pyReplace file_dir (TEST_DIR project ++ "/" ++ SRC_REFLECTION) (SRC_DIR project)
      let candidates := search_candidates file_dir base_name "_test" ++
        search_candidates src_dir ("impl/" ++ base_name) "_impl" ++
        search_candidates src_dir ("impl/" ++ base_name) "" ++
        search_candidates src_dir base_name "_impl" ++
        search_candidates src_dir base_name ""
      find_first_existing fs (seenFilter file_path [] candidates)
    else if endsWithS name "_impl" && hasSubS file_dir (SRC_DIR project) then
      let base_name := strDropRight name 5
      find_first_existing fs (seenFilter file_path [] (search_candidates file_dir base_name "_impl"))
    else
      find_first_existing fs (seenFilter file_path [] (search_candidates file_dir name ""))
  else none

/-- The root-selection chain at the top of `modify_clang_format`: relative
to `TEST_DIR` if the main file contains it as a substring, else to
`MOCK_DIR`, else to `SRC_DIR`. -/
def relative_main_file (project main_file : String) : String :=
  if hasSubS main_file (TEST_DIR project) then make_relative_to_base (TEST_DIR project) main_file
  else if hasSubS main_file (MOCK_DIR project) then make_relative_to_base (MOCK_DIR project) main_file
  else make_relative_to_base (SRC_DIR project) main_file

/-- The pure content transformation of `modify_clang_format`: each line of
the base document gets `line.replace("MAIN_INCLUDE_FILE", relative_main_file, 1)`
applied; the result is written to the (distinct) output path. -/
def modify_clang_format (project main_file : String) (config_lines : List String) : List String :=
  config_lines.map (fun line => pyReplaceOnce line "MAIN_INCLUDE_FILE" (relative_main_file project main_file))

/-- The suffix-stripped base name `name[:-5]` used by the `_mock`, `_test`
and `_impl` branches of `find_main_file`. -/
def stripped_base (p : String) : String := strDropRight (splitextS (basenameS p)).1 5

/-- The remapped source directory of the `_test` branch:
`file_dir.replace(TEST_DIR + "/" + SRC_REFLECTION, SRC_DIR)`. -/
def test_src_dir (project p : String) : String :=
  pyReplace (dirnameS p) (TEST_DIR project ++ "/" ++ SRC_REFLECTION) (SRC_DIR project)

/-- The remapped source directory of the `_mock` branch:
`file_dir.replace(MOCK_DIR + "/" + SRC_REFLECTION, SRC_DIR)`. -/
def mock_src_dir (project p : String) : String :=
  pyReplace (dirnameS p) (MOCK_DIR project ++ "/" ++ SRC_REFLECTION) (SRC_DIR project)

/-- Length of a string in characters. -/
def sLen (s : String) : Nat := s.data.length

/-- Filesystem for the C1 counterexample: the test file sits in
`test/core/impl/`, and in the remapped source directory `core/impl/` both
the plain header and the `_impl` header exist. -/
def fs_c1 : String → Bool := fun s =>
  s = "/project/test/core/impl/widget_test.hpp" ||
  s = "/project/core/impl/widget.hpp" ||
  s = "/project/core/impl/widget_impl.hpp"

/-- Filesystem for the C2 example scenario of the specification. -/
def fs_c2 : String → Bool := fun s =>
  s = "/project/test/core/widget_test.hpp" ||
  s = "/project/core/impl/widget_impl.hpp"

/-- Filesystem for the Mock-role witness: only the mock file itself and the
remapped source-root counterpart exist. -/
def fs_c3 : String → Bool := fun s =>
  s = "/project/test/mock/core/widget_mock.hpp" ||
  s = "/project/core/widget.hpp"

example : basenameS "/project/test/core/widget_test.hpp" = "widget_test.hpp" := by decide
example : dirnameS "/project/test/core/widget_test.hpp" = "/project/test/core" := by decide
example : splitextS "widget_test.hpp" = ("widget_test", ".hpp") := by decide
example : pyReplace "/project/test/core/impl" "/project/test/core" "/project/core" = "/project/core/impl" := by decide
example : make_relative_to_base "/project/core" "/project/core/impl/widget_impl.hpp" = "impl/widget_impl.hpp" := by decide
example :
    find_main_file "/project" (fun s => s = "/project/core/impl/widget_impl.hpp") "/project/test/core/widget_test.hpp"
      = some "/project/core/impl/widget_impl.hpp" := by decide

/-! ### Basic string infrastructure -/

theorem strExt {a b : String} (h : a.data = b.data) : a = b := by
  cases a; cases b; exact congrArg String.mk h

theorem strMkData (s : String) : (⟨s.data⟩ : String) = s := by cases s; rfl

/-! ### Properties of `seenFilter` -/

theorem seenFilter_mem_not_seen {p : String} :
    ∀ (l seen : List String) (x : String), x ∈ seenFilter p seen l → x ∉ seen := by
  intro l
  induction l with
  | nil => intro seen x hx; simp [seenFilter] at hx
  | cons y t ih =>
    intro seen x hx
    by_cases hy : y ∈ seen
    · rw [seenFilter, if_pos hy] at hx
      exact ih seen x hx
    · rw [seenFilter, if_neg hy] at hx
      by_cases hp : y = p
      · rw [if_pos hp] at hx
        have := ih (y :: seen) x hx
        exact fun hmem => this (List.mem_cons_of_mem _ hmem)
      · rw [if_neg hp] at hx
        rcases List.mem_cons.mp hx with rfl | hx'
        · exact hy
        · have := ih (y :: seen) x hx'
          exact fun hmem => this (List.mem_cons_of_mem _ hmem)

theorem seenFilter_nodup {p : String} :
    ∀ (l seen : List String), (seenFilter p seen l).Nodup := by
  intro l
  induction l with
  | nil => intro seen; simp [seenFilter]
  | cons y t ih =>
    intro seen
    by_cases hy : y ∈ seen
    · rw [seenFilter, if_pos hy]; exact ih seen
    · rw [seenFilter, if_neg hy]
      by_cases hp : y = p
      · rw [if_pos hp]; exact ih (y :: seen)
      · rw [if_neg hp]
        refine List.nodup_cons.mpr ⟨fun hmem => ?_, ih (y :: seen)⟩
        exact seenFilter_mem_not_seen t (y :: seen) y hmem (List.mem_cons_self _ _)

theorem seenFilter_ne_excl {p : String} :
    ∀ (l seen : List String), p ∉ seenFilter p seen l := by
  intro l
  induction l with
  | nil => intro seen; simp [seenFilter]
  | cons y t ih =>
    intro seen
    by_cases hy : y ∈ seen
    · rw [seenFilter, if_pos hy]; exact ih seen
    · rw [seenFilter, if_neg hy]
      by_cases hp : y = p
      · rw [if_pos hp]; exact ih (y :: seen)
      · rw [if_neg hp]
        intro hmem
        rcases List.mem_cons.mp hmem with h | h
        · exact hp h.symm
        · exact ih (y :: seen) h

/-! ### Properties of `find_first_existing` -/

theorem ffe_mem {fs : String → Bool} :
    ∀ {l : List String} {c : String}, find_first_existing fs l = some c →
      c ∈ l ∧ (c ≠ "" ∧ fs c = true) := by
  intro l
  induction l with
  | nil => intro c h; simp [find_first_existing] at h
  | cons y t ih =>
    intro c h
    rw [find_first_existing] at h
    by_cases hy : y ≠ "" ∧ fs y = true
    · rw [if_pos hy] at h
      cases h
      exact ⟨List.mem_cons_self _ _, hy⟩
    · rw [if_neg hy] at h
      obtain ⟨hmem, hpass⟩ := ih h
      exact ⟨List.mem_cons_of_mem _ hmem, hpass⟩

theorem ffe_drop_fail {fs : String → Bool} {x : String}
    (hx : ¬(x ≠ "" ∧ fs x = true)) :
    ∀ (l₁ l₂ : List String),
      find_first_existing fs (l₁ ++ x :: l₂) = find_first_existing fs (l₁ ++ l₂) := by
  intro l₁
  induction l₁ with
  | nil =>
    intro l₂
    simp only [List.nil_append]
    rw [find_first_existing, if_neg hx]
  | cons y t ih =>
    intro l₂
    by_cases hy : y ≠ "" ∧ fs y = true
    · simp only [List.cons_append, find_first_existing, if_pos hy]
    · simp only [List.cons_append, find_first_existing, if_neg hy]
      exact ih l₂

theorem ffe_skip_fails {fs : String → Bool} :
    ∀ {l₁ : List String} (l₂ : List String),
      (∀ x ∈ l₁, ¬(x ≠ "" ∧ fs x = true)) →
      find_first_existing fs (l₁ ++ l₂) = find_first_existing fs l₂ := by
  intro l₁
  induction l₁ with
  | nil => intro l₂ _; rfl
  | cons y t ih =>
    intro l₂ h
    have hy := h y (List.mem_cons_self _ _)
    simp only [List.cons_append, find_first_existing, if_neg hy]
    exact ih l₂ fun x hx => h x (List.mem_cons_of_mem _ hx)

theorem ffe_dup_inner {fs : String → Bool} {x : String} :
    ∀ {l₁ : List String} (l₂ : List String), x ∈ l₁ →
      find_first_existing fs (l₁ ++ x :: l₂) = find_first_existing fs (l₁ ++ l₂) := by
  intro l₁
  induction l₁ with
  | nil => intro l₂ h; simp at h
  | cons y t ih =>
    intro l₂ hmem
    by_cases hy : y ≠ "" ∧ fs y = true
    · simp only [List.cons_append, find_first_existing, if_pos hy]
    · simp only [List.cons_append, find_first_existing, if_neg hy]
      rcases List.mem_cons.mp hmem with rfl | h
      · exact ffe_drop_fail hy t l₂
      · exact ih l₂ h

theorem ffe_dup_block {fs : String → Bool} :
    ∀ (l₂ : List String) {l₁ l₃ : List String}, (∀ x ∈ l₂, x ∈ l₁) →
      find_first_existing fs (l₁ ++ (l₂ ++ l₃)) = find_first_existing fs (l₁ ++ l₃) := by
  intro l₂
  induction l₂ with
  | nil => intro l₁ l₃ _; rfl
  | cons y t ih =>
    intro l₁ l₃ h
    have hy : y ∈ l₁ := h y (List.mem_cons_self _ _)
    have step : find_first_existing fs (l₁ ++ (y :: (t ++ l₃)))
        = find_first_existing fs (l₁ ++ (t ++ l₃)) := ffe_dup_inner (t ++ l₃) hy
    calc find_first_existing fs (l₁ ++ ((y :: t) ++ l₃))
        = find_first_existing fs (l₁ ++ (y :: (t ++ l₃))) := by simp
      _ = find_first_existing fs (l₁ ++ (t ++ l₃)) := step
      _ = find_first_existing fs (l₁ ++ l₃) := ih fun x hx => h x (List.mem_cons_of_mem _ hx)

theorem ffe_filter_drop {fs : String → Bool} {x : String}
    (hx : ¬(x ≠ "" ∧ fs x = true)) (q : String → Bool) :
    ∀ l : List String,
      find_first_existing fs (l.filter fun y => q y && decide (y ≠ x))
        = find_first_existing fs (l.filter q) := by
  intro l
  induction l with
  | nil => rfl
  | cons y t ih =>
    by_cases hq : q y = true
    · by_cases hyx : y = x
      · subst hyx
        rw [List.filter_cons, List.filter_cons, if_pos hq,
            if_neg (by simp), ih, find_first_existing, if_neg hx]
      · have hf : (q y && decide (y ≠ x)) = true := by
          rw [hq]; simpa using hyx
        rw [List.filter_cons, List.filter_cons, if_pos hq, if_pos hf,
            find_first_existing, find_first_existing, ih]
    · have hf : ¬((q y && decide (y ≠ x)) = true) :=
        fun h => hq (Bool.and_eq_true _ _ ▸ h).1
      rw [List.filter_cons, List.filter_cons, if_neg hf, if_neg hq]
      exact ih

theorem ffe_seenFilter {fs : String → Bool} {p : String} :
    ∀ (l seen : List String),
      find_first_existing fs (seenFilter p seen l)
        = find_first_existing fs (l.filter fun x => decide (x ∉ seen) && decide (x ≠ p)) := by
  intro l
  induction l with
  | nil => intro seen; rfl
  | cons y t ih =>
    intro seen
    by_cases hy : y ∈ seen
    · rw [seenFilter, if_pos hy]
      simp only [List.filter_cons, Bool.and_eq_true, decide_eq_true_eq]
      rw [if_neg (fun h => h.1 hy)]
      exact ih seen
    · by_cases hp : y = p
      · subst hp
        rw [seenFilter, if_neg hy, if_pos rfl]
        simp only [List.filter_cons, Bool.and_eq_true, decide_eq_true_eq]
        rw [if_neg (fun h => h.2 rfl)]
        rw [ih (y :: seen)]
        refine congrArg _ (List.filter_congr fun a _ => ?_)
        by_cases hay : a = y
        · subst hay; simp
        · simp [List.mem_cons, hay]
      · rw [seenFilter, if_neg hy, if_neg hp]
        simp only [List.filter_cons, Bool.and_eq_true, decide_eq_true_eq]
        rw [if_pos ⟨hy, hp⟩]
        rw [find_first_existing, find_first_existing]
        by_cases hYpass : y ≠ "" ∧ fs y = true
        · rw [if_pos hYpass, if_pos hYpass]
        · rw [if_neg hYpass, if_neg hYpass, ih (y :: seen)]
          have congr1 : (t.filter fun x => decide (x ∉ y :: seen) && decide (x ≠ p))
              = (t.filter fun x => (decide (x ∉ seen) && decide (x ≠ p)) && decide (x ≠ y)) := by
            refine List.filter_congr fun a _ => ?_
            by_cases hay : a = y
            · subst hay; simp
            · simp [List.mem_cons, hay, Bool.and_comm, Bool.and_assoc, Bool.and_left_comm]
          rw [congr1]
          exact ffe_filter_drop hYpass _ t

theorem ffe_seenFilter_nil {fs : String → Bool} {p : String} (l : List String) :
    find_first_existing fs (seenFilter p [] l)
      = find_first_existing fs (l.filter fun x => decide (x ≠ p)) := by
  rw [ffe_seenFilter l []]
  refine congrArg _ (List.filter_congr fun a _ => ?_)
  simp

/-! ### `containsSub`, `replaceOnceCh`, `splitextCh` -/

theorem containsSub_iff {needle : List Char} :
    ∀ {hay : List Char}, containsSub hay needle = true ↔ needle <:+: hay := by
  intro hay
  induction hay with
  | nil =>
    rw [containsSub]
    by_cases hp : needle.isPrefixOf [] = true
    · simp only [if_pos hp, true_iff]
      exact (List.isPrefixOf_iff_prefix.mp hp).isInfix
    · simp only [if_neg hp]
      constructor
      · intro h; exact absurd h (by simp)
      · intro h
        rcases List.infix_nil.mp h with rfl
        exact absurd (List.isPrefixOf_iff_prefix.mpr List.nil_prefix) hp
  | cons c t ih =>
    rw [containsSub]
    by_cases hp : needle.isPrefixOf (c :: t) = true
    · simp only [if_pos hp, true_iff]
      exact (List.isPrefixOf_iff_prefix.mp hp).isInfix
    · simp only [if_neg hp]
      rw [ih]
      constructor
      · intro h; exact h.trans (List.infix_cons (List.infix_refl t))
      · intro h
        rcases List.infix_cons_iff.mp h with h' | h'
        · exact absurd (List.isPrefixOf_iff_prefix.mpr h') hp
        · exact h'

theorem containsSub_mono {n₁ n₂ : List Char} (h : n₁ <+: n₂) {hay : List Char}
    (h2 : containsSub hay n₂ = true) : containsSub hay n₁ = true :=
  containsSub_iff.mpr (h.isInfix.trans (containsSub_iff.mp h2))

theorem replaceOnce_id_of_no_sub {old new s : List Char}
    (h : containsSub s old = false) : replaceOnceCh old new s = s := by
  induction s with
  | nil =>
    rw [containsSub] at h
    rw [replaceOnceCh]
    by_cases hp : old.isPrefixOf [] = true
    · rw [if_pos hp] at h; exact absurd h (by simp)
    · rw [if_neg hp]
  | cons c cs ih =>
    rw [containsSub] at h
    by_cases hp : old.isPrefixOf (c :: cs) = true
    · rw [if_pos hp] at h; exact absurd h (by simp)
    · rw [if_neg hp] at h
      rw [replaceOnceCh, if_neg hp, ih h]

theorem replaceOnce_leftmost {old new : List Char} (hold : old ≠ []) :
    ∀ {s : List Char}, containsSub s old = true →
      ∃ a b : List Char, s = a ++ old ++ b ∧ containsSub a old = false ∧
        replaceOnceCh old new s = a ++ new ++ b := by
  intro s
  induction s with
  | nil =>
    intro h
    rcases List.infix_nil.mp (containsSub_iff.mp h) with rfl
    exact absurd rfl hold
  | cons c cs ih =>
    intro h
    by_cases hp : old.isPrefixOf (c :: cs) = true
    · obtain ⟨b, hb⟩ := List.isPrefixOf_iff_prefix.mp hp
      refine ⟨[], (c :: cs).drop old.length, ?_, ?_, ?_⟩
      · rw [show (c :: cs).drop old.length = b from by rw [← hb]; exact List.drop_left _ _]
        simpa using hb.symm
      · cases old with
        | nil => exact absurd rfl hold
        | cons o os =>
          have : ¬((o :: os) <:+: ([] : List Char)) := by simp [List.infix_nil]
          exact Bool.eq_false_iff.mpr fun hc => this (containsSub_iff.mp hc)
      · rw [replaceOnceCh, if_pos hp]
        simp
    · rw [containsSub, if_neg hp] at h
      obtain ⟨a, b, hcs, hna, hrepl⟩ := ih h
      refine ⟨c :: a, b, by simp [hcs], ?_, ?_⟩
      · rw [containsSub]
        have hnp : ¬(old.isPrefixOf (c :: a) = true) := by
          intro hpre
          apply hp
          apply List.isPrefixOf_iff_prefix.mpr
          have h1 : old <+: c :: a := List.isPrefixOf_iff_prefix.mp hpre
          have h2 : c :: a <+: c :: cs := by
            rw [hcs]
            exact ⟨old ++ b, by simp⟩
          exact h1.trans h2
        rw [if_neg hnp]
        exact hna
      · rw [replaceOnceCh, if_neg hp, hrepl]
        simp

theorem splitextCh_recompose (s : List Char) :
    (splitextCh s).1 ++ (splitextCh s).2 = s := by
  simp only [splitextCh]
  split
  · simp
  · split
    · exact List.take_append_drop _ _
    · simp

theorem splitextS_recompose (s : String) :
    (splitextS s).1 ++ (splitextS s).2 = s := by
  apply strExt
  rw [String.data_append]
  exact splitextCh_recompose s.data

/-! ### Branch shapes of `find_main_file` -/

theorem ffe_seenFilter_ne_self {fs : String → Bool} {p c : String} {l : List String}
    (h : find_first_existing fs (seenFilter p [] l) = some c) : c ≠ p := by
  obtain ⟨hmem, _⟩ := ffe_mem h
  rintro rfl
  exact seenFilter_ne_excl l [] hmem

theorem find_main_file_mock_eq (project : String) (fs : String → Bool) (p : String)
    (hext : (splitextS (basenameS p)).2 = ".cpp" ∨ (splitextS (basenameS p)).2 = ".hpp")
    (hm : (endsWithS (splitextS (basenameS p)).1 "_mock" && hasSubS (dirnameS p) (MOCK_DIR project)) = true) :
    find_main_file project fs p =
      find_first_existing fs (seenFilter p []
        (search_candidates (dirnameS p) (stripped_base p) "_mock" ++
         search_candidates (mock_src_dir project p) (stripped_base p) "")) := by
  simp only [find_main_file, stripped_base, mock_src_dir]
  rw [if_pos hext, if_pos hm]

theorem find_main_file_test_eq (project : String) (fs : String → Bool) (p : String)
    (hext : (splitextS (basenameS p)).2 = ".cpp" ∨ (splitextS (basenameS p)).2 = ".hpp")
    (hnm : ¬((endsWithS (splitextS (basenameS p)).1 "_mock" && hasSubS (dirnameS p) (MOCK_DIR project)) = true))
    (ht : (endsWithS (splitextS (basenameS p)).1 "_test" && hasSubS (dirnameS p) (TEST_DIR project)) = true) :
    find_main_file project fs p =
      find_first_existing fs (seenFilter p []
        (search_candidates (dirnameS p) (stripped_base p) "_test" ++
         search_candidates (test_src_dir project p) ("impl/" ++ stripped_base p) "_impl" ++
         search_candidates (test_src_dir project p) ("impl/" ++ stripped_base p) "" ++
         search_candidates (test_src_dir project p) (stripped_base p) "_impl" ++
         search_candidates (test_src_dir project p) (stripped_base p) "")) := by
  simp only [find_main_file, stripped_base, test_src_dir]
  rw [if_pos hext, if_neg hnm, if_pos ht]

theorem find_main_file_plain_eq (project : String) (fs : String → Bool) (p : String)
    (hext : (splitextS (basenameS p)).2 = ".cpp" ∨ (splitextS (basenameS p)).2 = ".hpp")
    (hnm : ¬((endsWithS (splitextS (basenameS p)).1 "_mock" && hasSubS (dirnameS p) (MOCK_DIR project)) = true))
    (hnt : ¬((endsWithS (splitextS (basenameS p)).1 "_test" && hasSubS (dirnameS p) (TEST_DIR project)) = true))
    (hni : ¬((endsWithS (splitextS (basenameS p)).1 "_impl" && hasSubS (dirnameS p) (SRC_DIR project)) = true)) :
    find_main_file project fs p =
      find_first_existing fs (seenFilter p []
        (search_candidates (dirnameS p) (splitextS (basenameS p)).1 "")) := by
  simp only [find_main_file]
  rw [if_pos hext, if_neg hnm, if_neg hnt, if_neg hni]

/-! ### Length bounds (used to rule out candidate/input collisions) -/

theorem joinCh_length_le (a b : List Char) :
    (joinCh a b).length ≤ a.length + b.length + 1 := by
  unfold joinCh
  split
  · omega
  · split
    · simp only [List.length_append]; omega
    · simp only [List.length_append, List.length_cons]; omega

theorem joinCh_length_ge (a b : List Char) (hb : ¬(b.head? = some '/')) :
    a.length + b.length ≤ (joinCh a b).length := by
  unfold joinCh
  rw [if_neg hb]
  split
  · simp
  · simp only [List.length_append, List.length_cons]; omega

theorem replaceAllAux_length_le {old new : List Char} (h : new.length ≤ old.length) :
    ∀ (fuel : Nat) (s : List Char), (replaceAllAux old new fuel s).length ≤ s.length := by
  intro fuel
  induction fuel with
  | zero => intro s; cases s <;> simp [replaceAllAux]
  | succ n ih =>
    intro s
    cases s with
    | nil => simp [replaceAllAux]
    | cons c cs =>
      rw [replaceAllAux]
      split
      · rename_i hc
        have hlen : old.length ≤ (c :: cs).length :=
          (List.isPrefixOf_iff_prefix.mp hc.2).length_le
        have hdrop : ((c :: cs).drop old.length).length = (c :: cs).length - old.length := by
          simp
        calc (new ++ replaceAllAux old new n ((c :: cs).drop old.length)).length
            = new.length + (replaceAllAux old new n ((c :: cs).drop old.length)).length := by simp
          _ ≤ old.length + ((c :: cs).drop old.length).length := Nat.add_le_add h (ih _)
          _ = old.length + ((c :: cs).length - old.length) := by rw [hdrop]
          _ = (c :: cs).length := by omega
      · simp only [List.length_cons]
        exact Nat.succ_le_succ (ih cs)

theorem pyReplace_sLen_le {s old new : String} (h : sLen new ≤ sLen old) :
    sLen (pyReplace s old new) ≤ sLen s :=
  replaceAllAux_length_le h s.data.length s.data

theorem revDropWhile_length_le (l : List Char) (q : Char → Bool) :
    ((l.reverse.dropWhile q).reverse).length ≤ l.length := by
  rw [List.length_reverse]
  calc (l.reverse.dropWhile q).length ≤ l.reverse.length := (List.dropWhile_sublist _).length_le
    _ = l.length := List.length_reverse l

theorem basenameCh_length_le (p : List Char) : (basenameCh p).length ≤ p.length := by
  rw [basenameCh, List.length_reverse]
  calc (p.reverse.takeWhile fun c => c ≠ '/').length
      ≤ p.reverse.length := (List.takeWhile_sublist _).length_le
    _ = p.length := List.length_reverse p

theorem dirnameCh_length_bound (p : List Char) :
    (dirnameCh p).length ≤ p.length - (basenameCh p).length := by
  have hbn : (basenameCh p).length = (p.reverse.takeWhile fun c => c ≠ '/').length := by
    rw [basenameCh, List.length_reverse]
  rw [hbn]
  simp only [dirnameCh]
  split
  · refine le_trans (revDropWhile_length_le _ _) ?_
    rw [List.length_take]
    exact Nat.min_le_left _ _
  · rw [List.length_take]
    exact Nat.min_le_left _ _

theorem dirname_basename_length (p : List Char) :
    (dirnameCh p).length + (basenameCh p).length ≤ p.length := by
  have h1 := dirnameCh_length_bound p
  have h2 := basenameCh_length_le p
  omega

theorem sLen_append (a b : String) : sLen (a ++ b) = sLen a + sLen b := by
  simp [sLen, String.data_append]

theorem dirnameS_sLen_le (s : String) : sLen (dirnameS s) ≤ sLen s :=
  le_trans (dirnameCh_length_bound s.data) (Nat.sub_le _ _)

theorem pyJoin_sLen_le (a b : String) : sLen (pyJoin a b) ≤ sLen a + sLen b + 1 :=
  joinCh_length_le a.data b.data

theorem sLen_TEST_ge (project : String) : sLen project + 4 ≤ sLen (TEST_DIR project) := by
  have h := joinCh_length_ge project.data "test".data (by decide)
  have e : ("test".data).length = 4 := rfl
  rw [e] at h
  exact h

theorem sLen_MOCK_ge (project : String) : sLen project + 8 ≤ sLen (MOCK_DIR project) := by
  have h := joinCh_length_ge (TEST_DIR project).data "mock".data (by decide)
  have e : ("mock".data).length = 4 := rfl
  rw [e] at h
  have h2 := sLen_TEST_ge project
  have h3 : sLen (TEST_DIR project) + 4 ≤ sLen (MOCK_DIR project) := h
  omega

theorem sLen_SRC_le (project : String) : sLen (SRC_DIR project) ≤ sLen project + 5 := by
  have h := joinCh_length_le project.data "core".data
  have e : ("core".data).length = 4 := rfl
  rw [e] at h
  exact h

theorem mock_src_dir_sLen_le (project p : String) :
    sLen (mock_src_dir project p) ≤ sLen (dirnameS p) := by
  apply pyReplace_sLen_le
  have h1 := sLen_SRC_le project
  have h2 := sLen_MOCK_ge project
  have h3 : sLen (MOCK_DIR project ++ "/" ++ SRC_REFLECTION) = sLen (MOCK_DIR project) + 5 := by
    rw [sLen_append, sLen_append]
    have e1 : sLen "/" = 1 := rfl
    have e2 : sLen SRC_REFLECTION = 4 := rfl
    omega
  omega

theorem test_src_dir_sLen_le (project p : String) :
    sLen (test_src_dir project p) ≤ sLen (dirnameS p) := by
  apply pyReplace_sLen_le
  have h1 := sLen_SRC_le project
  have h2 := sLen_TEST_ge project
  have h3 : sLen (TEST_DIR project ++ "/" ++ SRC_REFLECTION) = sLen (TEST_DIR project) + 5 := by
    rw [sLen_append, sLen_append]
    have e1 : sLen "/" = 1 := rfl
    have e2 : sLen SRC_REFLECTION = 4 := rfl
    omega
  omega

theorem search_candidates_mem {c file_dir base_name suffix : String}
    (h : c ∈ search_candidates file_dir base_name suffix) :
    c = pyJoin file_dir (base_name ++ suffix ++ ".hpp") ∨
    c = pyJoin file_dir (base_name ++ ".hpp") ∨
    c = pyJoin (dirnameS file_dir) (base_name ++ ".hpp") := by
  by_cases hi : basenameS file_dir = "impl"
  · simp only [search_candidates, if_pos hi, List.mem_append, List.mem_cons,
      List.mem_singleton, List.not_mem_nil, or_false] at h
    tauto
  · simp only [search_candidates, if_neg hi, List.append_nil, List.mem_cons,
      List.not_mem_nil, or_false] at h
    tauto

/-! ### Claim theorems -/

/-- C5: for every input path whose filename extension is neither `.hpp` nor
`.cpp`, the Resolver returns `None` immediately, for every project root and
every filesystem state. -/
theorem resolver_ignores_other_extensions (project : String) (fs : String → Bool) (p : String)
    (h1 : (splitextS (basenameS p)).2 ≠ ".hpp")
    (h2 : (splitextS (basenameS p)).2 ≠ ".cpp") :
    find_main_file project fs p = none := by
  simp only [find_main_file]
  rw [if_neg (fun h => h.elim h2 h1)]

theorem resolver_ignores_other_extensions_witness :
    (splitextS (basenameS "/project/core/readme.txt")).2 ≠ ".hpp" ∧
    (splitextS (basenameS "/project/core/readme.txt")).2 ≠ ".cpp" ∧
    find_main_file "/project" (fun _ => true) "/project/core/readme.txt" = none :=
  ⟨by decide, by decide,
   resolver_ignores_other_extensions "/project" (fun _ => true) "/project/core/readme.txt"
     (by decide) (by decide)⟩

/-- C8: the Resolver is a pure function of the input path, the root layout
and the filesystem existence oracle: running it twice yields the same
result, and two extensionally equal oracles yield the same result.  (The
embedding passes the oracle read-only, mirroring that `find_main_file` only
calls `os.path.isfile` and performs no filesystem mutation.) -/
theorem resolver_deterministic_pure (project : String) (fs fs2 : String → Bool) (p : String) :
    find_main_file project fs p = find_main_file project fs p ∧
    ((∀ s, fs s = fs2 s) → find_main_file project fs p = find_main_file project fs2 p) :=
  ⟨rfl, fun h => by rw [show fs = fs2 from funext h]⟩

theorem resolver_deterministic_pure_witness :
    find_main_file "/project" (fun _ => true) "/project/core/a.hpp"
      = find_main_file "/project" (fun _ => !false) "/project/core/a.hpp" :=
  (resolver_deterministic_pure "/project" (fun _ => true) (fun _ => !false)
    "/project/core/a.hpp").2 (fun _ => rfl)

/-- C2: on a filesystem where `/project/core/impl/widget_impl.hpp` exists
and no sibling candidate exists in the test directory,
`find_main_file("/project/test/core/widget_test.hpp")` returns
`/project/core/impl/widget_impl.hpp`, and the Templater substitutes the
placeholder with `impl/widget_impl.hpp` (the main file relative to the
source root). -/
theorem spec_example_widget_test :
    find_main_file "/project" fs_c2 "/project/test/core/widget_test.hpp"
      = some "/project/core/impl/widget_impl.hpp" ∧
    relative_main_file "/project" "/project/core/impl/widget_impl.hpp"
      = "impl/widget_impl.hpp" ∧
    modify_clang_format "/project" "/project/core/impl/widget_impl.hpp"
        ["  - Regex: MAIN_INCLUDE_FILE\n"]
      = ["  - Regex: impl/widget_impl.hpp\n"] :=
  ⟨by decide, by decide, by decide⟩

/-- C4: the candidate list is deduplicated keeping first occurrences (the
result is duplicate-free, never contains the input path, and the
deduplication never changes which candidate is selected first), and the
Resolver never returns the input path itself. -/
theorem resolver_dedup_and_never_self (project : String) (fs : String → Bool) (p : String)
    (l : List String) :
    ((seenFilter p [] l).Nodup ∧ p ∉ seenFilter p [] l ∧
      find_first_existing fs (seenFilter p [] l)
        = find_first_existing fs (l.filter fun x => decide (x ≠ p))) ∧
    ∀ c, find_main_file project fs p = some c → c ≠ p := by
  refine ⟨⟨seenFilter_nodup l [], seenFilter_ne_excl l [], ffe_seenFilter_nil l⟩, ?_⟩
  intro c h
  simp only [find_main_file] at h
  by_cases e0 : (splitextS (basenameS p)).2 = ".cpp" ∨ (splitextS (basenameS p)).2 = ".hpp"
  · rw [if_pos e0] at h
    by_cases e1 : (endsWithS (splitextS (basenameS p)).1 "_mock"
        && hasSubS (dirnameS p) (MOCK_DIR project)) = true
    · rw [if_pos e1] at h
      exact ffe_seenFilter_ne_self h
    · rw [if_neg e1] at h
      by_cases e2 : (endsWithS (splitextS (basenameS p)).1 "_test"
          && hasSubS (dirnameS p) (TEST_DIR project)) = true
      · rw [if_pos e2] at h
        exact ffe_seenFilter_ne_self h
      · rw [if_neg e2] at h
        by_cases e3 : (endsWithS (splitextS (basenameS p)).1 "_impl"
            && hasSubS (dirnameS p) (SRC_DIR project)) = true
        · rw [if_pos e3] at h
          exact ffe_seenFilter_ne_self h
        · rw [if_neg e3] at h
          exact ffe_seenFilter_ne_self h
  · rw [if_neg e0] at h
    cases h

theorem resolver_dedup_and_never_self_witness :
    find_main_file "/project" fs_c3 "/project/test/mock/core/widget_mock.hpp"
      = some "/project/core/widget.hpp" ∧
    "/project/core/widget.hpp" ≠ "/project/test/mock/core/widget_mock.hpp" :=
  ⟨by decide,
   (resolver_dedup_and_never_self "/project" fs_c3
     "/project/test/mock/core/widget_mock.hpp" []).2 "/project/core/widget.hpp" (by decide)⟩

/-- C9: because `MOCK_DIR` extends `TEST_DIR`, every main-file path that
contains `MOCK_DIR` as a substring also contains `TEST_DIR`, so the
`MOCK_DIR` branch of the Templater is unreachable: paths under the mock
root are always rendered relative to the test root. -/
theorem templater_mock_branch_shadowed (project main_file : String)
    (h : hasSubS main_file (MOCK_DIR project) = true) :
    hasSubS main_file (TEST_DIR project) = true ∧
    relative_main_file project main_file
      = make_relative_to_base (TEST_DIR project) main_file := by
  have hlead : (TEST_DIR project).data <+: (MOCK_DIR project).data := by
    show (TEST_DIR project).data <+: joinCh (TEST_DIR project).data "mock".data
    rw [joinCh]
    rw [if_neg (by decide)]
    split
    · exact List.prefix_append _ _
    · exact ⟨'/' :: "mock".data, rfl⟩
  have ht : hasSubS main_file (TEST_DIR project) = true := containsSub_mono hlead h
  exact ⟨ht, by rw [relative_main_file, if_pos ht]⟩

theorem templater_mock_branch_shadowed_witness :
    hasSubS "/project/test/mock/core/widget_mock.hpp" (TEST_DIR "/project") = true ∧
    relative_main_file "/project" "/project/test/mock/core/widget_mock.hpp"
      = make_relative_to_base (TEST_DIR "/project") "/project/test/mock/core/widget_mock.hpp" :=
  templater_mock_branch_shadowed "/project" "/project/test/mock/core/widget_mock.hpp" (by decide)

/-- C7: the derived document has exactly as many lines as the base
document, in order, and every line that does not contain the placeholder
token is unchanged byte for byte.  (The source reads the base document and
writes the result only to the separate output path, never back to the base
document, which the embedding reflects by treating the transformation as a
pure function of the input lines.) -/
theorem templater_line_count_and_frame (project main_file : String)
    (config_lines : List String) :
    (modify_clang_format project main_file config_lines).length = config_lines.length ∧
    ∀ (i : Nat) (hi : i < config_lines.length)
      (hi2 : i < (modify_clang_format project main_file config_lines).length),
      hasSubS (config_lines.get ⟨i, hi⟩) "MAIN_INCLUDE_FILE" = false →
      (modify_clang_format project main_file config_lines).get ⟨i, hi2⟩
        = config_lines.get ⟨i, hi⟩ := by
  constructor
  · exact List.length_map _ _
  · intro i hi hi2 hno
    have hmap : (modify_clang_format project main_file config_lines).get ⟨i, hi2⟩
        = pyReplaceOnce (config_lines.get ⟨i, hi⟩) "MAIN_INCLUDE_FILE"
            (relative_main_file project main_file) := by
      simp [modify_clang_format, List.get_map]
    rw [hmap]
    apply strExt
    exact replaceOnce_id_of_no_sub hno

theorem templater_line_count_and_frame_witness :
    (modify_clang_format "/project" "/project/core/widget.hpp"
      ["AAA\n", "B MAIN_INCLUDE_FILE\n"]).length = 2 ∧
    (modify_clang_format "/project" "/project/core/widget.hpp"
      ["AAA\n", "B MAIN_INCLUDE_FILE\n"]).get ⟨0, by decide⟩ = "AAA\n" :=
  ⟨(templater_line_count_and_frame "/project" "/project/core/widget.hpp"
      ["AAA\n", "B MAIN_INCLUDE_FILE\n"]).1.trans (by decide),
   (templater_line_count_and_frame "/project" "/project/core/widget.hpp"
      ["AAA\n", "B MAIN_INCLUDE_FILE\n"]).2 0 (by decide) (by decide) (by decide)⟩

/-- C10: a Plain-role `.hpp` input (in the normalised form the orchestrator
guarantees by applying `os.path.abspath`, captured by `hnorm`) whose
directory is not named `impl` resolves to `None` for every filesystem
state, since every generated candidate equals the input path itself and is
excluded by the self-exclusion rule. -/
theorem resolver_plain_hpp_none (project : String) (fs : String → Bool) (p : String)
    (hnorm : pyJoin (dirnameS p) (basenameS p) = p)
    (hext : (splitextS (basenameS p)).2 = ".hpp")
    (hnm : ¬((endsWithS (splitextS (basenameS p)).1 "_mock"
        && hasSubS (dirnameS p) (MOCK_DIR project)) = true))
    (hnt : ¬((endsWithS (splitextS (basenameS p)).1 "_test"
        && hasSubS (dirnameS p) (TEST_DIR project)) = true))
    (hni : ¬((endsWithS (splitextS (basenameS p)).1 "_impl"
        && hasSubS (dirnameS p) (SRC_DIR project)) = true))
    (himpl : basenameS (dirnameS p) ≠ "impl") :
    find_main_file project fs p = none := by
  rw [find_main_file_plain_eq project fs p (Or.inr hext) hnm hnt hni]
  have hname : (splitextS (basenameS p)).1 ++ "" ++ ".hpp" = basenameS p := by
    rw [String.append_empty, ← hext]
    exact splitextS_recompose (basenameS p)
  have hname2 : (splitextS (basenameS p)).1 ++ ".hpp" = basenameS p := by
    rw [← hext]
    exact splitextS_recompose (basenameS p)
  rw [search_candidates, if_neg himpl, hname, hname2, hnorm]
  simp [seenFilter, find_first_existing]

theorem resolver_plain_hpp_none_witness :
    find_main_file "/project" (fun _ => true) "/project/core/widget.hpp" = none :=
  resolver_plain_hpp_none "/project" (fun _ => true) "/project/core/widget.hpp"
    (by decide) (by decide) (by decide) (by decide) (by decide) (by decide)

/-- C6 counterexample: `modify_clang_format` performs
`line.replace("MAIN_INCLUDE_FILE", ..., 1)` — count 1 — so in a line with
two placeholder occurrences the second occurrence survives in the derived
document, contradicting "no occurrence of the placeholder remains". -/
theorem templater_second_occurrence_kept :
    modify_clang_format "/project" "/project/core/impl/widget_impl.hpp"
        ["A MAIN_INCLUDE_FILE B MAIN_INCLUDE_FILE\n"]
      = ["A impl/widget_impl.hpp B MAIN_INCLUDE_FILE\n"] ∧
    hasSubS "A impl/widget_impl.hpp B MAIN_INCLUDE_FILE\n" "MAIN_INCLUDE_FILE" = true :=
  ⟨by decide, by decide⟩

/-- C6 amended: for every line of the base document, exactly the leftmost
literal occurrence (if any) of the placeholder token is replaced by the
computed relative path (plain textual substitution, no escaping); a line
without an occurrence is unchanged, and later occurrences in the same line
are left in place. -/
theorem templater_replaces_leftmost_occurrence (project main_file : String)
    (config_lines : List String) (i : Nat) (hi : i < config_lines.length)
    (hi2 : i < (modify_clang_format project main_file config_lines).length) :
    (hasSubS (config_lines.get ⟨i, hi⟩) "MAIN_INCLUDE_FILE" = false →
      (modify_clang_format project main_file config_lines).get ⟨i, hi2⟩
        = config_lines.get ⟨i, hi⟩) ∧
    (hasSubS (config_lines.get ⟨i, hi⟩) "MAIN_INCLUDE_FILE" = true →
      ∃ a b : String,
        config_lines.get ⟨i, hi⟩ = a ++ "MAIN_INCLUDE_FILE" ++ b ∧
        hasSubS a "MAIN_INCLUDE_FILE" = false ∧
        (modify_clang_format project main_file config_lines).get ⟨i, hi2⟩
          = a ++ relative_main_file project main_file ++ b) := by
  have hmap : (modify_clang_format project main_file config_lines).get ⟨i, hi2⟩
      = pyReplaceOnce (config_lines.get ⟨i, hi⟩) "MAIN_INCLUDE_FILE"
          (relative_main_file project main_file) := by
    simp [modify_clang_format, List.get_map]
  constructor
  · intro hno
    rw [hmap]
    apply strExt
    exact replaceOnce_id_of_no_sub hno
  · intro hyes
    have hyes2 : containsSub (config_lines.get ⟨i, hi⟩).data "MAIN_INCLUDE_FILE".data = true := hyes
    obtain ⟨a, b, hsplit, hna, hrepl⟩ :=
      @replaceOnce_leftmost "MAIN_INCLUDE_FILE".data
        ((relative_main_file project main_file).data) (by decide) _ hyes2
    refine ⟨⟨a⟩, ⟨b⟩, ?_, hna, ?_⟩
    · apply strExt
      rw [String.data_append, String.data_append]
      exact hsplit
    · rw [hmap]
      apply strExt
      rw [String.data_append, String.data_append]
      exact hrepl

theorem templater_replaces_leftmost_occurrence_witness :
    ∃ a b : String,
      (["X MAIN_INCLUDE_FILE Y\n"] : List String).get ⟨0, by decide⟩
        = a ++ "MAIN_INCLUDE_FILE" ++ b ∧
      hasSubS a "MAIN_INCLUDE_FILE" = false ∧
      (modify_clang_format "/project" "/project/core/widget.hpp"
        ["X MAIN_INCLUDE_FILE Y\n"]).get ⟨0, by decide⟩
        = a ++ relative_main_file "/project" "/project/core/widget.hpp" ++ b :=
  (templater_replaces_leftmost_occurrence "/project" "/project/core/widget.hpp"
    ["X MAIN_INCLUDE_FILE Y\n"] 0 (by decide) (by decide)).2 (by decide)

/-- Helper for C3: a candidate generated in the remapped mock source
directory is strictly shorter than the input path, hence never equal to it
(the remapping only shrinks the directory, while the input's basename
carries the extra `_mock` suffix). -/
theorem mock_candidate_ne_input (project p c : String)
    (hext : (splitextS (basenameS p)).2 = ".cpp" ∨ (splitextS (basenameS p)).2 = ".hpp")
    (hsfx : endsWithS (splitextS (basenameS p)).1 "_mock" = true)
    (hc : c ∈ search_candidates (mock_src_dir project p) (stripped_base p) "") :
    c ≠ p := by
  intro hcp
  have hname_len : 5 ≤ sLen (splitextS (basenameS p)).1 := by
    have hs : ("_mock".data) <:+ ((splitextS (basenameS p)).1).data :=
      List.isSuffixOf_iff_suffix.mp hsfx
    have hle := hs.length_le
    have e : ("_mock".data).length = 5 := rfl
    rw [e] at hle
    exact hle
  have hbase_len : sLen (stripped_base p) = sLen (splitextS (basenameS p)).1 - 5 := by
    have h : sLen (stripped_base p)
        = min (sLen (splitextS (basenameS p)).1 - 5) (sLen (splitextS (basenameS p)).1) :=
      List.length_take _ _
    rw [h]
    exact min_eq_left (Nat.sub_le _ _)
  have hext_len : sLen (splitextS (basenameS p)).2 = 4 := by
    rcases hext with h | h <;> rw [h] <;> rfl
  have hrecomp : sLen (splitextS (basenameS p)).1 + sLen (splitextS (basenameS p)).2
      = sLen (basenameS p) := by
    have h := splitextS_recompose (basenameS p)
    have h2 : sLen ((splitextS (basenameS p)).1 ++ (splitextS (basenameS p)).2)
        = sLen (basenameS p) := by rw [h]
    rwa [sLen_append] at h2
  have hp_len : sLen (dirnameS p) + sLen (basenameS p) ≤ sLen p :=
    dirname_basename_length p.data
  have hsrc := mock_src_dir_sLen_le project p
  have hsuffix_len : sLen (stripped_base p ++ "" ++ ".hpp") = sLen (stripped_base p) + 4 := by
    rw [sLen_append, sLen_append]
    have e1 : sLen "" = 0 := rfl
    have e2 : sLen ".hpp" = 4 := rfl
    omega
  have hsuffix_len2 : sLen (stripped_base p ++ ".hpp") = sLen (stripped_base p) + 4 := by
    rw [sLen_append]
    have e2 : sLen ".hpp" = 4 := rfl
    omega
  have hclen : sLen c ≤ sLen (mock_src_dir project p) + sLen (stripped_base p) + 5 := by
    rcases search_candidates_mem hc with h | h | h
    · rw [h]
      have := pyJoin_sLen_le (mock_src_dir project p) (stripped_base p ++ "" ++ ".hpp")
      omega
    · rw [h]
      have := pyJoin_sLen_le (mock_src_dir project p) (stripped_base p ++ ".hpp")
      omega
    · rw [h]
      have h1 := pyJoin_sLen_le (dirnameS (mock_src_dir project p)) (stripped_base p ++ ".hpp")
      have h2 := dirnameS_sLen_le (mock_src_dir project p)
      omega
  have heq : sLen c = sLen p := congrArg sLen hcp
  omega

/-- C3: for every Mock-role input, if no own-directory sibling candidate
(other than the input itself) exists on disk but the remapped source-root
counterpart search yields an existing candidate, the Resolver returns that
remapped counterpart. -/
theorem resolver_mock_remap_counterpart (project : String) (fs : String → Bool) (p c₀ : String)
    (hext : (splitextS (basenameS p)).2 = ".cpp" ∨ (splitextS (basenameS p)).2 = ".hpp")
    (hm : (endsWithS (splitextS (basenameS p)).1 "_mock"
        && hasSubS (dirnameS p) (MOCK_DIR project)) = true)
    (hown : ∀ c ∈ search_candidates (dirnameS p) (stripped_base p) "_mock",
      c ≠ p → fs c = false)
    (hsrc : find_first_existing fs
        (search_candidates (mock_src_dir project p) (stripped_base p) "") = some c₀) :
    find_main_file project fs p = some c₀ := by
  rw [find_main_file_mock_eq project fs p hext hm, ffe_seenFilter_nil, List.filter_append]
  have hskip : ∀ x ∈ (search_candidates (dirnameS p) (stripped_base p) "_mock").filter
      (fun x => decide (x ≠ p)), ¬(x ≠ "" ∧ fs x = true) := by
    intro x hx
    obtain ⟨hmem, hqx⟩ := List.mem_filter.mp hx
    have hxp : x ≠ p := by simpa using hqx
    rintro ⟨-, hfs⟩
    rw [hown x hmem hxp] at hfs
    cases hfs
  rw [ffe_skip_fails _ hskip]
  have hfix : (search_candidates (mock_src_dir project p) (stripped_base p) "").filter
      (fun x => decide (x ≠ p))
      = search_candidates (mock_src_dir project p) (stripped_base p) "" := by
    apply List.filter_eq_self.mpr
    intro a ha
    simpa using mock_candidate_ne_input project p a hext ((Bool.and_eq_true _ _ ▸ hm).1) ha
  rw [hfix]
  exact hsrc

theorem resolver_mock_remap_counterpart_witness :
    find_main_file "/project" fs_c3 "/project/test/mock/core/widget_mock.hpp"
      = some "/project/core/widget.hpp" :=
  resolver_mock_remap_counterpart "/project" fs_c3 "/project/test/mock/core/widget_mock.hpp"
    "/project/core/widget.hpp" (by decide) (by decide) (by decide) (by decide)

/-- C1 counterexample: for the Test-role input
`/project/test/core/impl/widget_test.hpp` the remapped source directory is
`/project/core/impl`, which is itself named `impl`, so `search_candidates`
inserts `/project/core/impl/widget.hpp` (through its parent-directory rule)
before `/project/core/impl/widget_impl.hpp`.  With both files on disk and
no own-directory sibling, the Resolver returns `widget.hpp`, while the
claimed order `impl/base_impl.hpp, impl/base.hpp, base_impl.hpp, base.hpp`
(first existing wins) would return `widget_impl.hpp`. -/
theorem test_fallback_order_counterexample :
    fs_c1 "/project/test/core/impl/widget.hpp" = false ∧
    fs_c1 "/project/test/core/widget.hpp" = false ∧
    find_first_existing fs_c1
      ["/project/core/impl/impl/widget_impl.hpp",
       "/project/core/impl/impl/widget.hpp",
       "/project/core/impl/widget_impl.hpp",
       "/project/core/impl/widget.hpp"]
      = some "/project/core/impl/widget_impl.hpp" ∧
    find_main_file "/project" fs_c1 "/project/test/core/impl/widget_test.hpp"
      = some "/project/core/impl/widget.hpp" ∧
    ("/project/core/impl/widget.hpp" : String) ≠ "/project/core/impl/widget_impl.hpp" :=
  ⟨by decide, by decide, by decide, by decide, by decide⟩

/-- Helper: dropping two later duplicate blocks never changes the first
existing candidate. -/
theorem ffe_dup_two {fs : String → Bool} (l₁ d₁ e₁ d₂ e₂ : List String)
    (h1 : ∀ x ∈ e₁, x ∈ d₁) (h2 : ∀ x ∈ e₂, x ∈ d₂) :
    find_first_existing fs (l₁ ++ d₁ ++ e₁ ++ d₂ ++ e₂)
      = find_first_existing fs (l₁ ++ (d₁ ++ d₂)) := by
  have key1 : find_first_existing fs ((l₁ ++ d₁) ++ (e₁ ++ (d₂ ++ e₂)))
      = find_first_existing fs ((l₁ ++ d₁) ++ (d₂ ++ e₂)) :=
    ffe_dup_block e₁ (fun x hx => List.mem_append_right _ (h1 x hx))
  have key2 : find_first_existing fs (((l₁ ++ d₁) ++ d₂) ++ (e₂ ++ []))
      = find_first_existing fs (((l₁ ++ d₁) ++ d₂) ++ []) :=
    ffe_dup_block e₂ (fun x hx => List.mem_append_right _ (h2 x hx))
  calc find_first_existing fs (l₁ ++ d₁ ++ e₁ ++ d₂ ++ e₂)
      = find_first_existing fs ((l₁ ++ d₁) ++ (e₁ ++ (d₂ ++ e₂))) := by
        simp only [List.append_assoc]
    _ = find_first_existing fs ((l₁ ++ d₁) ++ (d₂ ++ e₂)) := key1
    _ = find_first_existing fs (((l₁ ++ d₁) ++ d₂) ++ (e₂ ++ [])) := by
        simp only [List.append_assoc, List.append_nil]
    _ = find_first_existing fs (((l₁ ++ d₁) ++ d₂) ++ []) := key2
    _ = find_first_existing fs (l₁ ++ (d₁ ++ d₂)) := by
        simp only [List.append_assoc, List.append_nil]

/-- C1 amended: for every Test-role input whose remapped source directory
is not itself named `impl` (otherwise `search_candidates` interleaves a
parent-directory candidate, see the counterexample), the candidates tried
after the own-directory siblings are exactly, in order,
`srcDir/impl/base_impl.hpp`, `srcDir/impl/base.hpp`, `srcDir/base_impl.hpp`,
`srcDir/base.hpp`, and the Resolver returns the first existing candidate of
the whole sequence (the input path itself excluded). -/
theorem resolver_test_remap_order (project : String) (fs : String → Bool) (p : String)
    (hext : (splitextS (basenameS p)).2 = ".cpp" ∨ (splitextS (basenameS p)).2 = ".hpp")
    (hnm : ¬((endsWithS (splitextS (basenameS p)).1 "_mock"
        && hasSubS (dirnameS p) (MOCK_DIR project)) = true))
    (ht : (endsWithS (splitextS (basenameS p)).1 "_test"
        && hasSubS (dirnameS p) (TEST_DIR project)) = true)
    (hsi : basenameS (test_src_dir project p) ≠ "impl") :
    find_main_file project fs p =
      find_first_existing fs
        ((search_candidates (dirnameS p) (stripped_base p) "_test" ++
          [pyJoin (test_src_dir project p) ("impl/" ++ stripped_base p ++ "_impl" ++ ".hpp"),
           pyJoin (test_src_dir project p) ("impl/" ++ stripped_base p ++ ".hpp"),
           pyJoin (test_src_dir project p) (stripped_base p ++ "_impl" ++ ".hpp"),
           pyJoin (test_src_dir project p) (stripped_base p ++ ".hpp")]).filter
            fun x => decide (x ≠ p)) := by
  rw [find_main_file_test_eq project fs p hext hnm ht, ffe_seenFilter_nil]
  have e2 : search_candidates (test_src_dir project p) ("impl/" ++ stripped_base p) "_impl"
      = [pyJoin (test_src_dir project p) ("impl/" ++ stripped_base p ++ "_impl" ++ ".hpp"),
         pyJoin (test_src_dir project p) ("impl/" ++ stripped_base p ++ ".hpp")] := by
    rw [search_candidates, if_neg hsi, List.append_nil]
  have e3 : search_candidates (test_src_dir project p) ("impl/" ++ stripped_base p) ""
      = [pyJoin (test_src_dir project p) ("impl/" ++ stripped_base p ++ ".hpp"),
         pyJoin (test_src_dir project p) ("impl/" ++ stripped_base p ++ ".hpp")] := by
    rw [search_candidates, if_neg hsi, List.append_nil, String.append_empty]
  have e4 : search_candidates (test_src_dir project p) (stripped_base p) "_impl"
      = [pyJoin (test_src_dir project p) (stripped_base p ++ "_impl" ++ ".hpp"),
         pyJoin (test_src_dir project p) (stripped_base p ++ ".hpp")] := by
    rw [search_candidates, if_neg hsi, List.append_nil]
  have e5 : search_candidates (test_src_dir project p) (stripped_base p) ""
      = [pyJoin (test_src_dir project p) (stripped_base p ++ ".hpp"),
         pyJoin (test_src_dir project p) (stripped_base p ++ ".hpp")] := by
    rw [search_candidates, if_neg hsi, List.append_nil, String.append_empty]
  rw [e2, e3, e4, e5]
  set q : String → Bool := fun x => decide (x ≠ p) with hq
  set c1 := search_candidates (dirnameS p) (stripped_base p) "_test" with hc1
  set iXi := pyJoin (test_src_dir project p) ("impl/" ++ stripped_base p ++ "_impl" ++ ".hpp")
    with hiXi
  set iX := pyJoin (test_src_dir project p) ("impl/" ++ stripped_base p ++ ".hpp") with hiX
  set Xi := pyJoin (test_src_dir project p) (stripped_base p ++ "_impl" ++ ".hpp") with hXi
  set X := pyJoin (test_src_dir project p) (stripped_base p ++ ".hpp") with hX
  simp only [List.filter_append]
  have mem3 : ∀ x ∈ List.filter q [iX, iX], x ∈ List.filter q [iXi, iX] := by
    intro x hx
    obtain ⟨hm, hqx⟩ := List.mem_filter.mp hx
    have hxe : x = iX := by
      rcases List.mem_cons.mp hm with h | h
      · exact h
      · simpa using h
    exact List.mem_filter.mpr ⟨by rw [hxe]; simp, hqx⟩
  have mem5 : ∀ x ∈ List.filter q [X, X], x ∈ List.filter q [Xi, X] := by
    intro x hx
    obtain ⟨hm, hqx⟩ := List.mem_filter.mp hx
    have hxe : x = X := by
      rcases List.mem_cons.mp hm with h | h
      · exact h
      · simpa using h
    exact List.mem_filter.mpr ⟨by rw [hxe]; simp, hqx⟩
  refine (ffe_dup_two (List.filter q c1) (List.filter q [iXi, iX]) (List.filter q [iX, iX])
    (List.filter q [Xi, X]) (List.filter q [X, X]) mem3 mem5).trans ?_
  rw [← List.filter_append]
  simp only [List.cons_append, List.nil_append]

theorem resolver_test_remap_order_witness :
    find_main_file "/project" fs_c2 "/project/test/core/widget_test.hpp" =
      find_first_existing fs_c2
        ((search_candidates (dirnameS "/project/test/core/widget_test.hpp")
            (stripped_base "/project/test/core/widget_test.hpp") "_test" ++
          [pyJoin (test_src_dir "/project" "/project/test/core/widget_test.hpp")
             ("impl/" ++ stripped_base "/project/test/core/widget_test.hpp" ++ "_impl" ++ ".hpp"),
           pyJoin (test_src_dir "/project" "/project/test/core/widget_test.hpp")
             ("impl/" ++ stripped_base "/project/test/core/widget_test.hpp" ++ ".hpp"),
           pyJoin (test_src_dir "/project" "/project/test/core/widget_test.hpp")
             (stripped_base "/project/test/core/widget_test.hpp" ++ "_impl" ++ ".hpp"),
           pyJoin (test_src_dir "/project" "/project/test/core/widget_test.hpp")
             (stripped_base "/project/test/core/widget_test.hpp" ++ ".hpp")]).filter
            fun x => decide (x ≠ "/project/test/core/widget_test.hpp")) :=
  resolver_test_remap_order "/project" fs_c2 "/project/test/core/widget_test.hpp"
    (by decide) (by decide) (by decide) (by decide)
